import Mathlib

/-!
Shallow embedding of the relationship-intelligence / beneficial-ownership
analyzer of the HOSKDOG repository.

Source embedded here:
* `src/api/utils/cardano-tx.js` — the relationship analyzer module, present in
  the repository in two variants: an earlier one (no suffix below) and a later
  one (suffix `_v2`) that stores the full transaction hash in connection
  targets and reworks `groupByTransactionTiming`.
* the relationship route handler (`POST /api/relationships/analyze`).

Modelling conventions:
* JavaScript numbers that only ever hold integer counts are `Nat`; values that
  are divided (timestamp averages, confidences, likelihood percentages) are `ℚ`
  (JS floats modelled exactly, all arithmetic here stays rational).
* `Date.now()` is passed in as an explicit `now : Nat` parameter.
* a JS object used as a string-keyed map is an association list in insertion
  order; an update touches the first entry with the matching key, a new key is
  appended at the end (JS string-key enumeration order).
* an absent / undefined field is an `Option`; code that throws returns `Except`.
* the JS `type` property is spelled `ctype` (`type` is reserved in Lean);
  `Math.abs` / `Math.min` are `jsAbs` / `jsMinQ`; `String.prototype.startsWith`
  is `jsStartsWith`; `new Set(xs).size` is `jsSetSize`.
-/

namespace HKDG

/-- One element of the Koios `tx_list`: the two fields the analyzer reads. -/
structure Tx where
  tx_hash : String
  block_time : Option Nat
deriving DecidableEq

/-- A connection record pushed by `buildRelationshipGraph`.  The later variant
adds the `targetDisplay` field; in the earlier variant it is absent (`none`). -/
structure Connection where
  target : String
  targetDisplay : Option String := none
  strength : Nat
  firstSeen : Nat
  lastSeen : Nat
  ctype : String := "transaction"
deriving DecidableEq

/-- The relationship graph built by `buildRelationshipGraph`. -/
structure Graph where
  source : String
  connections : List Connection
  transactionCount : Nat
  firstSeen : Option Nat
  lastSeen : Option Nat
deriving DecidableEq

/-- A cluster produced by `identifyClusters`. -/
structure Cluster where
  id : String
  ctype : String
  addresses : List String
  size : Nat
  riskLevel : String
deriving DecidableEq

/-- The metadata object of an analysis (the fields the analyzer computes;
`analyzedAt`, a wall-clock string, is not modelled). -/
structure AnalysisMetadata where
  totalConnections : Nat
  uniqueAddresses : Nat
deriving DecidableEq

/-- The result object of `analyzeAddressRelationships`. -/
structure Relationships where
  address : String
  depth : Nat
  connections : List Connection
  clusters : List Cluster
  riskScore : Nat
  metadata : AnalysisMetadata
deriving DecidableEq

/-- JavaScript truthiness of a number-or-null slot: `null` and `0` are falsy. -/
def jsFalsyNat : Option Nat → Bool
  | none => true
  | some n => n == 0

/-- `tx.block_time || Date.now()` — a `block_time` of 0 (falsy) also falls
back to the current time. -/
def txTimestamp (tx : Tx) (now : Nat) : Nat :=
  match tx.block_time with
  | none => now
  | some t => if t = 0 then now else t

/-- `if (!graph.firstSeen || timestamp < graph.firstSeen) graph.firstSeen = timestamp`. -/
def updFirstSeen (fs : Option Nat) (ts : Nat) : Option Nat :=
  if jsFalsyNat fs ∨ ts < fs.getD 0 then some ts else fs

/-- `if (!graph.lastSeen || timestamp > graph.lastSeen) graph.lastSeen = timestamp`. -/
def updLastSeen (ls : Option Nat) (ts : Nat) : Option Nat :=
  if jsFalsyNat ls ∨ ls.getD 0 < ts then some ts else ls

/-- `hash.substring(0, 16)` (the whole string when shorter than 16 chars). -/
def jsSubstring16 (s : String) : String :=
  String.mk (s.data.take 16)

/-- The per-hash record of the earlier variant's `addressFrequency` map:
`{ count, firstSeen, lastSeen }`. -/
structure FreqData where
  count : Nat
  firstSeen : Nat
  lastSeen : Nat
deriving DecidableEq

/-- One iteration of the earlier variant's frequency-map update:
create `{count: 1, firstSeen: ts, lastSeen: ts}` for a new hash, else
`count++; lastSeen = ts` on the existing entry. -/
def bumpFreq (h : String) (ts : Nat) : List (String × FreqData) → List (String × FreqData)
  | [] => [(h, { count := 1, firstSeen := ts, lastSeen := ts })]
  | (k, d) :: rest =>
    if k = h then (k, { d with count := d.count + 1, lastSeen := ts }) :: rest
    else (k, d) :: bumpFreq h ts rest

/-- The single `transactions.forEach` loop of the earlier
`buildRelationshipGraph`, threading `(firstSeen, lastSeen, addressFrequency)`. -/
def graphStep (now : Nat) (st : Option Nat × Option Nat × List (String × FreqData))
    (tx : Tx) : Option Nat × Option Nat × List (String × FreqData) :=
  let ts := txTimestamp tx now
  (updFirstSeen st.1 ts, updLastSeen st.2.1 ts, bumpFreq tx.tx_hash ts st.2.2)

/-- Earlier variant of `buildRelationshipGraph` (`target` is the truncated
transaction hash). -/
def buildRelationshipGraph (sourceAddress : String) (transactions : List Tx)
    (now : Nat) : Graph :=
  let st := transactions.foldl (graphStep now) (none, none, [])
  { source := sourceAddress
    connections := st.2.2.map (fun kd =>
      { target := jsSubstring16 kd.1 ++ "..."
        strength := kd.2.count
        firstSeen := kd.2.firstSeen
        lastSeen := kd.2.lastSeen
        ctype := "transaction" })
    transactionCount := transactions.length
    firstSeen := st.1
    lastSeen := st.2.1 }

/-- The per-hash record of the later variant's `transactionFrequency` map:
`{ txHash, count, firstSeen, lastSeen }`. -/
structure FreqData2 where
  txHash : String
  count : Nat
  firstSeen : Nat
  lastSeen : Nat
deriving DecidableEq

/-- Later variant's frequency-map update (also stores the full hash). -/
def bumpFreq2 (h : String) (ts : Nat) : List (String × FreqData2) → List (String × FreqData2)
  | [] => [(h, { txHash := h, count := 1, firstSeen := ts, lastSeen := ts })]
  | (k, d) :: rest =>
    if k = h then (k, { d with count := d.count + 1, lastSeen := ts }) :: rest
    else (k, d) :: bumpFreq2 h ts rest

/-- The `transactions.forEach` loop of the later `buildRelationshipGraph`. -/
def graphStep2 (now : Nat) (st : Option Nat × Option Nat × List (String × FreqData2))
    (tx : Tx) : Option Nat × Option Nat × List (String × FreqData2) :=
  let ts := txTimestamp tx now
  (updFirstSeen st.1 ts, updLastSeen st.2.1 ts, bumpFreq2 tx.tx_hash ts st.2.2)

/-- Later variant of `buildRelationshipGraph` (`target` is the full transaction
hash, with a separate truncated `targetDisplay`). -/
def buildRelationshipGraph_v2 (sourceAddress : String) (transactions : List Tx)
    (now : Nat) : Graph :=
  let st := transactions.foldl (graphStep2 now) (none, none, [])
  { source := sourceAddress
    connections := st.2.2.map (fun kd =>
      { target := kd.2.txHash
        targetDisplay := some (jsSubstring16 kd.2.txHash ++ "...")
        strength := kd.2.count
        firstSeen := kd.2.firstSeen
        lastSeen := kd.2.lastSeen
        ctype := "transaction" })
    transactionCount := transactions.length
    firstSeen := st.1
    lastSeen := st.2.1 }

/-- `identifyClusters`: buckets connections by strength tier (identical in both
variants). -/
def identifyClusters (graph : Graph) : List Cluster :=
  let connections := graph.connections
  let highFrequency := connections.filter (fun c => 3 ≤ c.strength)
  let mediumFrequency := connections.filter (fun c => c.strength = 2)
  let lowFrequency := connections.filter (fun c => c.strength = 1)
  (if 0 < highFrequency.length then
    [{ id := "high-frequency", ctype := "frequent-interaction"
       addresses := highFrequency.map (fun c => c.target)
       size := highFrequency.length, riskLevel := "medium" }]
   else []) ++
  (if 0 < mediumFrequency.length then
    [{ id := "medium-frequency", ctype := "moderate-interaction"
       addresses := mediumFrequency.map (fun c => c.target)
       size := mediumFrequency.length, riskLevel := "low" }]
   else []) ++
  (if 0 < lowFrequency.length then
    [{ id := "low-frequency", ctype := "rare-interaction"
       addresses := lowFrequency.map (fun c => c.target)
       size := lowFrequency.length, riskLevel := "low" }]
   else [])

/-- `calculateRiskScore` (identical in both variants).  The sequential
`score += …` accumulation is written as one sum of the three additive
components, then `Math.min(score, 100)`. -/
def calculateRiskScore (graph : Graph) : Nat :=
  min
    ((if 30 < graph.connections.length then 20
      else if 15 < graph.connections.length then 10 else 0)
     + (if 5 < (graph.connections.filter (fun c => 5 ≤ c.strength)).length then 30
        else if 2 < (graph.connections.filter (fun c => 5 ≤ c.strength)).length then 15
        else 0)
     + (if graph.transactionCount < 5 then 10 else 0))
    100

/-- The risk-score table exactly as claim C1 states it (spec wording): +30 when
the high-frequency count is at least 5, else +15 when it is between 2 and 5.
Written from the specification, to be compared with `calculateRiskScore`. -/
def riskScoreClaim (graph : Graph) : Nat :=
  min
    ((if 30 < graph.connections.length then 20
      else if 15 < graph.connections.length then 10 else 0)
     + (if 5 ≤ (graph.connections.filter (fun c => 5 ≤ c.strength)).length then 30
        else if 2 ≤ (graph.connections.filter (fun c => 5 ≤ c.strength)).length then 15
        else 0)
     + (if graph.transactionCount < 5 then 10 else 0))
    100

/-- `new Set(xs).size`: the number of distinct elements. -/
def jsSetSize (l : List String) : Nat :=
  (l.foldl (fun s x => if x ∈ s then s else s ++ [x]) []).length

/-- `analyzeAddressRelationships`, with the awaited transaction history passed
in as a parameter (the fetch itself is `getAddressTransactionHistory` below).
`metadata.analyzedAt` (a wall-clock string) is not modelled. -/
def analyzeAddressRelationships (address : String) (depth : Nat)
    (txHistory : List Tx) (now : Nat) : Relationships :=
  let graph := buildRelationshipGraph address txHistory now
  { address := address
    depth := depth
    connections := graph.connections
    clusters := identifyClusters graph
    riskScore := calculateRiskScore graph
    metadata :=
      { totalConnections := graph.connections.length
        uniqueAddresses := jsSetSize (graph.connections.map (fun c => c.target)) } }

/-- One element of the Koios `/address_txs` response array. -/
structure AddrTxs where
  tx_list : Option (List Tx)
deriving DecidableEq

/-- The outcome of the axios call in `getAddressTransactionHistory`:
either the request threw, or it produced `response.data`
(`none` models a missing/undefined `data`). -/
inductive KoiosResp where
  | failed : String → KoiosResp
  | ok : Option (List AddrTxs) → KoiosResp
deriving DecidableEq

/-- `getAddressTransactionHistory` as a function of the indexer response:
`[]` when the request throws or `response.data` is missing or empty, otherwise
`(response.data[0]?.tx_list || []).slice(0, 50)`. -/
def getAddressTransactionHistory (resp : KoiosResp) : List Tx :=
  match resp with
  | .failed _ => []
  | .ok none => []
  | .ok (some data) =>
    if data.length = 0 then []
    else (((data.head?).bind (fun a => a.tx_list)).getD []).take 50

/-- A timing group of `groupByTransactionTiming`. -/
structure TimingGroup where
  addresses : List String
  avgTime : ℚ
  confidence : ℚ
deriving DecidableEq

/-- `Math.abs` on a rational. -/
def jsAbs (q : ℚ) : ℚ := if q < 0 then -q else q

/-- `Math.min` on rationals. -/
def jsMinQ (q r : ℚ) : ℚ := if q ≤ r then q else r

/-- `const timeWindow = 3600000; // 1 hour in milliseconds`. -/
def timeWindow : ℚ := 3600000

/-- The average `lastSeen` of an analysis:
`connections.reduce((sum, c) => sum + (c.lastSeen || 0), 0) / connections.length`
(`c.lastSeen` is a `Nat` here, so `c.lastSeen || 0` is `c.lastSeen`). -/
def analysisAvgTime (a : Relationships) : ℚ :=
  (a.connections.foldl (fun sum c => sum + (c.lastSeen : ℚ)) 0)
    / (a.connections.length : ℚ)

/-- The `for (const group of groups)` loop of the earlier
`groupByTransactionTiming`: the address joins the first group whose current
average is within the window — the group average then becomes the midpoint
`(group.avgTime + avgTime) / 2` — otherwise a new group with confidence 0.5 is
pushed at the end. -/
def addToGroups (addr : String) (avg : ℚ) : List TimingGroup → List TimingGroup
  | [] => [{ addresses := [addr], avgTime := avg, confidence := 1/2 }]
  | g :: gs =>
    if jsAbs (g.avgTime - avg) < timeWindow then
      { g with addresses := g.addresses ++ [addr], avgTime := (g.avgTime + avg) / 2 } :: gs
    else g :: addToGroups addr avg gs

/-- Earlier variant of `groupByTransactionTiming`: greedy grouping of the
analyses that have at least one connection, then keep only the groups with at
least two addresses. -/
def groupByTransactionTiming (analyses : List Relationships) : List TimingGroup :=
  (analyses.foldl
    (fun groups analysis =>
      if 0 < analysis.connections.length then
        addToGroups analysis.address (analysisAvgTime analysis) groups
      else groups)
    []).filter (fun g => 2 ≤ g.addresses.length)

/-- The grouping loop of the later variant: same first-fit search, but the
group average is updated as a weighted average
`(group.avgTime * oldSize + avgTime) / (oldSize + 1)` and a fresh group starts
with confidence 1.0. -/
def addToGroups_v2 (addr : String) (avg : ℚ) : List TimingGroup → List TimingGroup
  | [] => [{ addresses := [addr], avgTime := avg, confidence := 1 }]
  | g :: gs =>
    if jsAbs (g.avgTime - avg) < timeWindow then
      { g with
        addresses := g.addresses ++ [addr]
        avgTime := (g.avgTime * (g.addresses.length : ℚ) + avg)
                     / ((g.addresses.length : ℚ) + 1) } :: gs
    else g :: addToGroups_v2 addr avg gs

/-- The building loop (`analyses.forEach`) of the later
`groupByTransactionTiming`, up to the point where the function fails. -/
def buildTimingGroups_v2 (analyses : List Relationships) : List TimingGroup :=
  analyses.foldl
    (fun groups analysis =>
      if 0 < analysis.connections.length then
        addToGroups_v2 analysis.address (analysisAvgTime analysis) groups
      else groups)
    []

/-- A JavaScript runtime error. -/
inductive JsError where
  | typeError : String → JsError
deriving DecidableEq

/-- The error raised by an assignment to a `const`-declared binding. -/
def constAssignError : JsError :=
  JsError.typeError "Assignment to constant variable."

/-- Later variant of `groupByTransactionTiming`: after the building loop it
executes `groups = groups.map(...)` — an assignment to the `const`-declared
binding `groups`.  JavaScript evaluates the right-hand side, then the
assignment raises a `TypeError`, so the function never returns a value. -/
def groupByTransactionTiming_v2 (analyses : List Relationships) :
    Except JsError (List TimingGroup) :=
  let _groups := buildTimingGroups_v2 analyses
  Except.error constAssignError

/-- A control pattern of `identifyControlPatterns` (a heterogeneous JS object;
fields absent for a given pattern kind are `none` / `[]`). -/
structure ControlPattern where
  ptype : String
  address : Option String := none
  addresses : List String := []
  connectionCount : Option Nat := none
  description : String
  confidence : Option ℚ := none
deriving DecidableEq

/-- Pattern 1 of `identifyControlPatterns`: hub addresses (more than 10
connections). -/
def hubPatterns (analyses : List Relationships) : List ControlPattern :=
  analyses.filterMap (fun analysis =>
    if 10 < analysis.connections.length then
      some { ptype := "hub"
             address := some analysis.address
             connectionCount := some analysis.connections.length
             description := "Address with high number of connections (potential hub)" }
    else none)

/-- Later variant of `identifyControlPatterns`: hub detection, then the
synchronized-activity patterns from `groupByTransactionTiming` — whose failure
propagates. -/
def identifyControlPatterns_v2 (analyses : List Relationships) :
    Except JsError (List ControlPattern) :=
  let patterns := hubPatterns analyses
  match groupByTransactionTiming_v2 analyses with
  | .error e => .error e
  | .ok timingGroups =>
    .ok (patterns ++
      (if 0 < timingGroups.length then
        timingGroups.filterMap (fun group =>
          if 2 ≤ group.addresses.length then
            some { ptype := "synchronized"
                   addresses := group.addresses
                   description := "Addresses with synchronized transaction patterns"
                   confidence := some group.confidence }
          else none)
       else []))

/-- The per-target record of `identifyBeneficialOwners`' `addressOccurrences`
map. -/
structure OwnerData where
  address : String
  occurrences : Nat
  totalStrength : Nat
  connectedAddresses : List String
deriving DecidableEq

/-- A beneficial-owner candidate. -/
structure BeneficialOwner where
  address : String
  likelihood : ℚ
  strength : Nat
  connectedAddresses : List String
  otype : String
deriving DecidableEq

/-- One `connection` step of the `addressOccurrences` accumulation:
create the entry on first sight, else `occurrences++`,
`totalStrength += strength`, `connectedAddresses.push(analysis.address)`. -/
def bumpOwner (src : String) (c : Connection) :
    List (String × OwnerData) → List (String × OwnerData)
  | [] => [(c.target,
      { address := c.target, occurrences := 1, totalStrength := c.strength
        connectedAddresses := [src] })]
  | (k, d) :: rest =>
    if k = c.target then
      (k, { d with
            occurrences := d.occurrences + 1
            totalStrength := d.totalStrength + c.strength
            connectedAddresses := d.connectedAddresses ++ [src] }) :: rest
    else (k, d) :: bumpOwner src c rest

/-- The inner `analysis.connections.forEach` loop. -/
def ownerTableStep (tbl : List (String × OwnerData)) (a : Relationships) :
    List (String × OwnerData) :=
  a.connections.foldl (fun tbl c => bumpOwner a.address c tbl) tbl

/-- The full `addressOccurrences` map of `identifyBeneficialOwners`. -/
def ownerTable (analyses : List Relationships) : List (String × OwnerData) :=
  analyses.foldl ownerTableStep []

/-- The beneficial-owner record built from one `addressOccurrences` entry:
`likelihood = Math.min((occurrences / analyses.length) * 100, 100)` and
`type = occurrences >= analyses.length * 0.5 ? 'strong' : 'moderate'`. -/
def mkOwner (len : Nat) (d : OwnerData) : BeneficialOwner :=
  { address := d.address
    likelihood := jsMinQ ((d.occurrences : ℚ) / (len : ℚ) * 100) 100
    strength := d.totalStrength
    connectedAddresses := d.connectedAddresses
    otype := if (len : ℚ) * (1/2) ≤ (d.occurrences : ℚ) then "strong" else "moderate" }

/-- The descending-likelihood order used by the final
`beneficialOwners.sort((a, b) => b.likelihood - a.likelihood)`. -/
def likGE (a b : BeneficialOwner) : Prop := b.likelihood ≤ a.likelihood

instance : DecidableRel likGE :=
  fun a b => inferInstanceAs (Decidable (b.likelihood ≤ a.likelihood))

instance : IsTotal BeneficialOwner likGE :=
  ⟨fun a b => le_total b.likelihood a.likelihood⟩

instance : IsTrans BeneficialOwner likGE :=
  ⟨fun _ _ _ hab hbc => le_trans hbc hab⟩

/-- `identifyBeneficialOwners` (identical in both variants): keep the targets
seen at least twice, build the candidate records, and sort them by likelihood
descending (`Array.prototype.sort` is stable, modelled by a stable insertion
sort under `likGE`). -/
def identifyBeneficialOwners (analyses : List Relationships) : List BeneficialOwner :=
  let tbl := ownerTable analyses
  let owners :=
    ((tbl.map Prod.snd).filter (fun d => 2 ≤ d.occurrences)).map
      (mkOwner analyses.length)
  List.insertionSort likGE owners

/-- Total number of times `t` occurs as a connection target across the
analyses' connection lists (claim C4's occurrence count, code reading). -/
def targetOccurrences (t : String) (analyses : List Relationships) : Nat :=
  (analyses.map (fun a => (a.connections.filter (fun c => c.target = t)).length)).sum

/-- Number of analyses that contain `t` as a connection target (claim C4's
occurrence count, spec wording: "in at least 2 of the per-address analyses"). -/
def analysesContaining (t : String) (analyses : List Relationships) : Nat :=
  (analyses.filter (fun a => a.connections.any (fun c => c.target = t))).length

/-- The ownership result of `analyzeBeneficialOwnership`
(`distributionMetrics`, computed after the failing step, is not modelled). -/
structure Ownership where
  addresses : List String
  beneficialOwners : List BeneficialOwner
  controlPatterns : List ControlPattern
deriving DecidableEq

/-- Later variant of `analyzeBeneficialOwnership`, with the awaited per-address
analyses passed as a parameter: beneficial owners, then control patterns —
whose failure propagates out of the function's try/catch (which rethrows). -/
def analyzeBeneficialOwnership_v2 (addresses : List String)
    (analyses : List Relationships) : Except JsError Ownership :=
  let owners := identifyBeneficialOwners analyses
  match identifyControlPatterns_v2 analyses with
  | .error e => .error e
  | .ok patterns =>
    .ok { addresses := addresses, beneficialOwners := owners, controlPatterns := patterns }

/-- `String.prototype.startsWith`, over the character lists. -/
def strPrefix : List Char → List Char → Bool
  | [], _ => true
  | _ :: _, [] => false
  | p :: ps, s :: ss => if p = s then strPrefix ps ss else false

/-- `s.startsWith(p)`. -/
def jsStartsWith (s p : String) : Bool := strPrefix p.data s.data

/-- The HTTP response of a route handler (only the fields the claims are
about: the status code, the `error` message, and the `details` field). -/
structure RouteResponse where
  status : Nat
  errorMsg : Option String
  details : Option String
deriving DecidableEq

/-- The `POST /api/relationships/analyze` handler: the request body's
`address` (absent field = `none`; the empty string is falsy, like a missing
field), the analyzer outcome, and `NODE_ENV`.  Responds 400 on a falsy or
badly-prefixed address, 200 on success, 500 on an analyzer exception with
`details` carrying the message only in development mode. -/
def analyzeHandler (address : Option String) (analyzer : Except String Unit)
    (nodeEnv : String) : RouteResponse :=
  match address with
  | none =>
    { status := 400, errorMsg := some "Wallet address is required", details := none }
  | some a =>
    if a = "" then
      { status := 400, errorMsg := some "Wallet address is required", details := none }
    else if !(jsStartsWith a "addr1" || jsStartsWith a "stake1") then
      { status := 400, errorMsg := some "Invalid Cardano address format"
        details := some "Address must start with addr1 or stake1" }
    else
      match analyzer with
      | .ok _ => { status := 200, errorMsg := none, details := none }
      | .error msg =>
        { status := 500, errorMsg := some "Failed to analyze relationships"
          details := if nodeEnv = "development" then some msg else none }

/-! Concrete inputs used by the counterexample and witness theorems below. -/

/-- A connection with the given target and strength (timestamps 0). -/
def mkConn (t : String) (s : Nat) : Connection :=
  { target := t, strength := s, firstSeen := 0, lastSeen := 0 }

/-- A graph with exactly five high-frequency (strength-5) connections and ten
transactions. -/
def c1Graph : Graph :=
  { source := "addr1source"
    connections := [mkConn "t1" 5, mkConn "t2" 5, mkConn "t3" 5, mkConn "t4" 5, mkConn "t5" 5]
    transactionCount := 10
    firstSeen := none
    lastSeen := none }

/-- An analysis record with the given address and one connection whose
`lastSeen` is `t`. -/
def mkTimedAnalysis (addr : String) (t : Nat) : Relationships :=
  { address := addr, depth := 1
    connections := [{ target := "x", strength := 1, firstSeen := t, lastSeen := t }]
    clusters := [], riskScore := 0
    metadata := { totalConnections := 1, uniqueAddresses := 1 } }

/-- Three analyses whose average last-seen times are 0, 3 500 000 and
5 200 000 ms: the first two fall inside one window, and the drifting group
average then also captures the third. -/
def c2A1 : Relationships := mkTimedAnalysis "a1" 0
def c2A2 : Relationships := mkTimedAnalysis "a2" 3500000
def c2A3 : Relationships := mkTimedAnalysis "a3" 5200000

/-- Two analyses 1000 ms apart, grouped together. -/
def c2W1 : Relationships := mkTimedAnalysis "b1" 200
def c2W2 : Relationships := mkTimedAnalysis "b2" 1200

/-- Two transactions with distinct hashes. -/
def c3Txs : List Tx :=
  [{ tx_hash := "hash_a", block_time := some 100 },
   { tx_hash := "hash_b", block_time := some 200 }]

/-- A single analysis whose connection list mentions the same target twice. -/
def c4CexAnalyses : List Relationships :=
  [{ address := "addr1one", depth := 1
     connections := [mkConn "t" 1, mkConn "t" 1]
     clusters := [], riskScore := 0
     metadata := { totalConnections := 2, uniqueAddresses := 1 } }]

/-- Two analyses that share the target "shared". -/
def c4WitAnalyses : List Relationships :=
  [{ address := "addr1a", depth := 1
     connections := [mkConn "shared" 2, mkConn "only-a" 1]
     clusters := [], riskScore := 0
     metadata := { totalConnections := 2, uniqueAddresses := 2 } },
   { address := "addr1b", depth := 1
     connections := [mkConn "shared" 3]
     clusters := [], riskScore := 0
     metadata := { totalConnections := 1, uniqueAddresses := 1 } }]

/-- A graph whose connection strengths hit all three cluster tiers. -/
def c5Graph : Graph :=
  { source := "addr1five"
    connections := [mkConn "u1" 1, mkConn "u2" 2, mkConn "u3" 3, mkConn "u4" 4]
    transactionCount := 10
    firstSeen := none
    lastSeen := none }

/-! Proof-support definitions (views of the structures above, used to state
and prove the fold invariants). -/

/-- Keys of an association list. -/
def keysOf {α : Type} (m : List (String × α)) : List String := m.map Prod.fst

/-- First-match lookup, exactly as JS property access reads a key. -/
def lookupTbl {α : Type} (t : String) : List (String × α) → Option α
  | [] => none
  | (k, d) :: rest => if k = t then some d else lookupTbl t rest

/-- The occurrence count stored for target `t` (0 when absent). -/
def occOf (t : String) (tbl : List (String × OwnerData)) : Nat :=
  match lookupTbl t tbl with
  | none => 0
  | some d => d.occurrences

/-- Well-formedness of the `addressOccurrences` map: distinct keys, each
entry's `address` field equal to its key, and a positive count. -/
def TblWF (tbl : List (String × OwnerData)) : Prop :=
  (keysOf tbl).Nodup ∧ ∀ p ∈ tbl, p.2.address = p.1 ∧ 1 ≤ p.2.occurrences

/-- The frequency-map component of the earlier graph-building loop. -/
def freqFold (now : Nat) (txs : List Tx) (m : List (String × FreqData)) :
    List (String × FreqData) :=
  txs.foldl (fun m tx => bumpFreq tx.tx_hash (txTimestamp tx now) m) m

/-- The frequency-map component of the later graph-building loop. -/
def freqFold2 (now : Nat) (txs : List Tx) (m : List (String × FreqData2)) :
    List (String × FreqData2) :=
  txs.foldl (fun m tx => bumpFreq2 tx.tx_hash (txTimestamp tx now) m) m

/-! ## Theorems -/

/-- Claim C1, counterexample: on a graph with exactly five high-frequency
(strength ≥ 5) connections, `calculateRiskScore` yields 15, while the table of
the claim — "+30 points if the number of high-frequency connections is at
least 5" — yields 30, so the claim fails on the code. -/
theorem c1_risk_score_counterexample :
    calculateRiskScore c1Graph = 15 ∧ riskScoreClaim c1Graph = 30 ∧
      calculateRiskScore c1Graph ≠ riskScoreClaim c1Graph :=
  ⟨by decide, by decide, by decide⟩

/-- Claim C1 (amended): `calculateRiskScore(graph)` equals the additive table
+20 if more than 30 connections, else +10 if more than 15; +30 if the number
of high-frequency (strength ≥ 5) connections is at least 6, else +15 if it is
between 3 and 5; +10 if `transactionCount` is below 5; capped at 100.  In
particular, for a graph with exactly 5 high-frequency connections the score
includes +15, not +30. -/
theorem c1_risk_score_amended (g : Graph) :
    calculateRiskScore g =
      min ((if 30 < g.connections.length then 20
            else if 15 < g.connections.length then 10 else 0)
         + (if 6 ≤ (g.connections.filter (fun c => 5 ≤ c.strength)).length then 30
            else if 3 ≤ (g.connections.filter (fun c => 5 ≤ c.strength)).length
                   ∧ (g.connections.filter (fun c => 5 ≤ c.strength)).length ≤ 5 then 15
            else 0)
         + (if g.transactionCount < 5 then 10 else 0)) 100 := by
  unfold calculateRiskScore
  split_ifs <;> omega

/-- Claim C9: for every graph, `calculateRiskScore` is at most 60 — the sum of
its three components is at most 20 + 30 + 10 — so the `Math.min(score, 100)`
cap is never binding and scores in 61–100 are unreachable. -/
theorem c9_risk_score_at_most_60 (g : Graph) :
    calculateRiskScore g ≤ 60
    ∧ calculateRiskScore g =
        (if 30 < g.connections.length then 20
         else if 15 < g.connections.length then 10 else 0)
        + (if 5 < (g.connections.filter (fun c => 5 ≤ c.strength)).length then 30
           else if 2 < (g.connections.filter (fun c => 5 ≤ c.strength)).length then 15
           else 0)
        + (if g.transactionCount < 5 then 10 else 0) := by
  unfold calculateRiskScore
  constructor
  · split_ifs <;> omega
  · split_ifs <;> omega

/-- Claim C8: the later variant of `groupByTransactionTiming` reassigns its
`const`-declared `groups` binding, so every call raises a TypeError;
consequently the later `identifyControlPatterns`, and with it
`analyzeBeneficialOwnership`, fail on every input. -/
theorem c8_const_reassignment_typeerror :
    (∀ analyses, groupByTransactionTiming_v2 analyses = Except.error constAssignError)
    ∧ (∀ analyses, identifyControlPatterns_v2 analyses = Except.error constAssignError)
    ∧ (∀ addresses analyses,
        analyzeBeneficialOwnership_v2 addresses analyses = Except.error constAssignError) :=
  ⟨fun _ => rfl, fun _ => rfl, fun _ _ => rfl⟩

/-- Claim C7: `getAddressTransactionHistory` returns at most 50 transactions,
and `analyzeAddressRelationships` is single-hop: its result depends on `depth`
only through the copied `depth` field, and its connections are exactly those
of the one graph built from the queried address's history. -/
theorem c7_single_hop_bounded_history :
    (∀ resp, (getAddressTransactionHistory resp).length ≤ 50)
    ∧ (∀ a d h now, analyzeAddressRelationships a d h now =
        { analyzeAddressRelationships a 1 h now with depth := d })
    ∧ (∀ a d h now, (analyzeAddressRelationships a d h now).connections =
        (buildRelationshipGraph a h now).connections) := by
  refine ⟨?_, ?_, ?_⟩
  · intro resp
    match resp with
    | .failed _ => simp [getAddressTransactionHistory]
    | .ok none => simp [getAddressTransactionHistory]
    | .ok (some data) =>
      simp only [getAddressTransactionHistory]
      split
      · simp
      · exact List.length_take_le 50 _
  · intro a d h now; rfl
  · intro a d h now; rfl

/-- Claim C10: when the Koios request fails or returns no data,
`getAddressTransactionHistory` returns `[]` rather than propagating the error,
and the analysis of the empty history succeeds with no connections, no
clusters, and risk score 10 (the under-5-transactions bonus). -/
theorem c10_indexer_failure_graceful (resp : KoiosResp) (a : String) (d now : Nat)
    (h : (∃ e, resp = KoiosResp.failed e) ∨ resp = KoiosResp.ok none
         ∨ resp = KoiosResp.ok (some [])) :
    getAddressTransactionHistory resp = []
    ∧ (analyzeAddressRelationships a d (getAddressTransactionHistory resp) now).connections = []
    ∧ (analyzeAddressRelationships a d (getAddressTransactionHistory resp) now).clusters = []
    ∧ (analyzeAddressRelationships a d (getAddressTransactionHistory resp) now).riskScore = 10 := by
  have hist : getAddressTransactionHistory resp = [] := by
    rcases h with ⟨e, rfl⟩ | rfl | rfl <;> rfl
  rw [hist]
  exact ⟨rfl, rfl, rfl, rfl⟩

/-- Witness for C10 at a concrete failed request. -/
theorem c10_indexer_failure_graceful_witness :
    getAddressTransactionHistory (KoiosResp.failed "timeout") = []
    ∧ (analyzeAddressRelationships "addr1w0" 2
        (getAddressTransactionHistory (KoiosResp.failed "timeout")) 0).connections = []
    ∧ (analyzeAddressRelationships "addr1w0" 2
        (getAddressTransactionHistory (KoiosResp.failed "timeout")) 0).clusters = []
    ∧ (analyzeAddressRelationships "addr1w0" 2
        (getAddressTransactionHistory (KoiosResp.failed "timeout")) 0).riskScore = 10 :=
  c10_indexer_failure_graceful (KoiosResp.failed "timeout") "addr1w0" 2 0
    (Or.inl ⟨"timeout", rfl⟩)

/-- Claim C6: the analyze route responds 400 exactly when the body's address
is missing (or empty, which JS treats as missing) or starts with neither
`addr1` nor `stake1`; an analyzer exception on a validated address yields 500,
whose `details` field carries the error message exactly in development mode. -/
theorem c6_analyze_route_validation (address : Option String)
    (analyzer : Except String Unit) (nodeEnv : String) :
    ((analyzeHandler address analyzer nodeEnv).status = 400 ↔
      (address = none ∨ ∃ a, address = some a
        ∧ jsStartsWith a "addr1" = false ∧ jsStartsWith a "stake1" = false))
    ∧ (∀ a msg, address = some a →
        (jsStartsWith a "addr1" = true ∨ jsStartsWith a "stake1" = true) →
        analyzer = Except.error msg →
        (analyzeHandler address analyzer nodeEnv).status = 500
        ∧ (nodeEnv = "development" →
            (analyzeHandler address analyzer nodeEnv).details = some msg)
        ∧ (nodeEnv ≠ "development" →
            (analyzeHandler address analyzer nodeEnv).details = none)) := by
  constructor
  · match address with
    | none => simp [analyzeHandler]
    | some a =>
      by_cases ha : a = ""
      · subst ha
        simp only [analyzeHandler, if_pos rfl]
        constructor
        · intro _
          exact Or.inr ⟨"", rfl, by decide, by decide⟩
        · intro _; rfl
      · simp only [analyzeHandler, if_neg ha]
        by_cases hp : (jsStartsWith a "addr1" || jsStartsWith a "stake1") = true
        · rw [hp]
          rw [if_neg (by decide : ¬ ((!true : Bool) = true))]
          constructor
          · intro hst
            exfalso
            match analyzer with
            | .ok u => simp at hst
            | .error m => simp at hst
          · rintro (hnone | ⟨a', ha', h1, h2⟩)
            · exact absurd hnone (by simp)
            · have : a' = a := by injection ha'.symm
              subst this
              rcases Bool.or_eq_true_iff.mp hp with h | h
              · rw [h1] at h; exact absurd h (by simp)
              · rw [h2] at h; exact absurd h (by simp)
        · have hp' : (jsStartsWith a "addr1" || jsStartsWith a "stake1") = false :=
            Bool.eq_false_iff.mpr hp
          rw [hp']
          simp only [Bool.not_false, if_pos rfl]
          constructor
          · intro _
            rcases Bool.or_eq_false_iff.mp hp' with ⟨h1, h2⟩
            exact Or.inr ⟨a, rfl, h1, h2⟩
          · intro _; rfl
  · rintro a msg rfl hpre rfl
    have ha : ¬ a = "" := by
      rcases hpre with h | h
      · intro he; subst he; exact absurd h (by decide)
      · intro he; subst he; exact absurd h (by decide)
    have hp : (jsStartsWith a "addr1" || jsStartsWith a "stake1") = true := by
      rcases hpre with h | h
      · simp [h]
      · simp [h]
    simp only [analyzeHandler, if_neg ha, hp]
    rw [if_neg (by decide : ¬ ((!true : Bool) = true))]
    refine ⟨rfl, ?_, ?_⟩
    · intro hd; simp [hd]
    · intro hd; simp [hd]

/-- Witness for C6 at a concrete valid address, analyzer failure, and
non-development environment. -/
theorem c6_analyze_route_validation_witness :
    (analyzeHandler (some "addr1w6") (Except.error "boom") "production").status = 500
    ∧ ("production" = "development" →
        (analyzeHandler (some "addr1w6") (Except.error "boom") "production").details
          = some "boom")
    ∧ ("production" ≠ "development" →
        (analyzeHandler (some "addr1w6") (Except.error "boom") "production").details
          = none) :=
  (c6_analyze_route_validation (some "addr1w6") (Except.error "boom") "production").2
    "addr1w6" "boom" rfl (Or.inl (by decide)) rfl

/-- `addToGroups` preserves the invariant that every group's confidence is the
fixed 0.5 it is created with. -/
theorem addToGroups_confidence (addr : String) (avg : ℚ) :
    ∀ groups, (∀ g ∈ groups, g.confidence = 1/2) →
      ∀ g ∈ addToGroups addr avg groups, g.confidence = 1/2 := by
  intro groups
  induction groups with
  | nil =>
    intro _ g hg
    simp only [addToGroups, List.mem_singleton] at hg
    subst hg
    rfl
  | cons g0 gs ih =>
    intro h g hg
    simp only [addToGroups] at hg
    split at hg
    · rcases List.mem_cons.mp hg with hg | hg
      · subst hg
        exact h g0 (List.mem_cons_self g0 gs)
      · exact h g (List.mem_cons_of_mem g0 hg)
    · rcases List.mem_cons.mp hg with hg | hg
      · subst hg
        exact h g (List.mem_cons_self g gs)
      · exact ih (fun x hx => h x (List.mem_cons_of_mem g0 hx)) g hg

/-- The building loop of the earlier `groupByTransactionTiming` preserves the
fixed-confidence invariant. -/
theorem timingFold_confidence (analyses : List Relationships) :
    ∀ groups, (∀ g ∈ groups, g.confidence = 1/2) →
      ∀ g ∈ analyses.foldl
        (fun groups analysis =>
          if 0 < analysis.connections.length then
            addToGroups analysis.address (analysisAvgTime analysis) groups
          else groups) groups,
        g.confidence = 1/2 := by
  induction analyses with
  | nil => intro groups h; simpa using h
  | cons a as ih =>
    intro groups h
    simp only [List.foldl_cons]
    apply ih
    split
    · exact addToGroups_confidence _ _ groups h
    · exact h

/-- Claim C2, counterexample: with three analyses whose average last-seen
times are 0 ms, 3 500 000 ms and 5 200 000 ms, the earlier (returning)
`groupByTransactionTiming` puts all three addresses in one group even though
the first and third averages are 5 200 000 ms apart — more than the one-hour
window — and the group's confidence is the fixed 0.5 rather than a
standard-deviation-derived value.  This falsifies the claim's "same group
exactly when the averages fall within a fixed one-hour window". -/
theorem c2_timing_groups_counterexample :
    groupByTransactionTiming [c2A1, c2A2, c2A3] =
      [{ addresses := ["a1", "a2", "a3"], avgTime := 3475000, confidence := 1/2 }]
    ∧ ¬ jsAbs (analysisAvgTime c2A1 - analysisAvgTime c2A3) < timeWindow := by
  constructor
  · norm_num [groupByTransactionTiming, addToGroups, analysisAvgTime, jsAbs, timeWindow,
      c2A1, c2A2, c2A3, mkTimedAnalysis]
  · norm_num [jsAbs, analysisAvgTime, timeWindow, c2A1, c2A3, mkTimedAnalysis]

/-- Claim C2 (amended): the earlier (returning) `groupByTransactionTiming`
assigns each address greedily to the first group whose running average is
within the one-hour window (the average then moves to the midpoint), so group
membership does not imply pairwise one-hour proximity of the member averages;
every returned group has at least two addresses and carries the fixed
confidence 0.5 — not a value derived from the standard deviation (that
computation exists only in the later variant, which fails before returning). -/
theorem c2_timing_groups_amended (analyses : List Relationships) :
    ∀ g ∈ groupByTransactionTiming analyses,
      2 ≤ g.addresses.length ∧ g.confidence = 1/2 := by
  intro g hg
  unfold groupByTransactionTiming at hg
  rw [List.mem_filter] at hg
  constructor
  · simpa using hg.2
  · exact timingFold_confidence analyses [] (by simp) g hg.1

/-- Witness for C2 (amended) at a concrete two-address grouping. -/
theorem c2_timing_groups_amended_witness :
    2 ≤ (TimingGroup.mk ["b1", "b2"] 700 (1/2)).addresses.length
    ∧ (TimingGroup.mk ["b1", "b2"] 700 (1/2)).confidence = 1/2 :=
  c2_timing_groups_amended [c2W1, c2W2] (TimingGroup.mk ["b1", "b2"] 700 (1/2))
    (by norm_num [groupByTransactionTiming, addToGroups, analysisAvgTime, jsAbs,
      timeWindow, c2W1, c2W2, mkTimedAnalysis])

/-- With all strengths positive, the three tier filters of `identifyClusters`
count every connection exactly once. -/
theorem strength_tier_partition (l : List Connection)
    (h : ∀ c ∈ l, 1 ≤ c.strength) :
    (l.filter (fun c => 3 ≤ c.strength)).length
      + (l.filter (fun c => c.strength = 2)).length
      + (l.filter (fun c => c.strength = 1)).length = l.length := by
  induction l with
  | nil => rfl
  | cons c cs ih =>
    have hc := h c (List.mem_cons_self c cs)
    have ih' := ih (fun x hx => h x (List.mem_cons_of_mem c hx))
    simp only [List.filter_cons, List.length_cons]
    split_ifs <;> simp_all <;> omega

/-- A filter has positive length exactly when some element satisfies it. -/
theorem filter_length_pos_iff {α : Type} (p : α → Bool) (l : List α) :
    0 < (l.filter p).length ↔ ∃ x ∈ l, p x = true := by
  rw [List.length_pos]
  constructor
  · intro hne
    match hl : l.filter p with
    | [] => exact absurd hl hne
    | y :: ys =>
      have hy : y ∈ l.filter p := hl ▸ List.mem_cons_self y ys
      rcases List.mem_filter.mp hy with ⟨hyl, hyp⟩
      exact ⟨y, hyl, hyp⟩
  · rintro ⟨x, hx, hpx⟩ hnil
    have hmem : x ∈ l.filter p := List.mem_filter.mpr ⟨hx, hpx⟩
    rw [hnil] at hmem
    exact absurd hmem (List.not_mem_nil x)

/-- A high-frequency cluster is emitted exactly when the strength-3 tier is
nonempty. -/
theorem clusters_high_iff (g : Graph) :
    (∃ cl ∈ identifyClusters g, cl.id = "high-frequency")
      ↔ 0 < (g.connections.filter (fun c => 3 ≤ c.strength)).length := by
  simp only [identifyClusters]
  split_ifs <;> simp_all

/-- A medium-frequency cluster is emitted exactly when the strength-2 tier is
nonempty. -/
theorem clusters_medium_iff (g : Graph) :
    (∃ cl ∈ identifyClusters g, cl.id = "medium-frequency")
      ↔ 0 < (g.connections.filter (fun c => c.strength = 2)).length := by
  simp only [identifyClusters]
  split_ifs <;> simp_all

/-- A low-frequency cluster is emitted exactly when the strength-1 tier is
nonempty. -/
theorem clusters_low_iff (g : Graph) :
    (∃ cl ∈ identifyClusters g, cl.id = "low-frequency")
      ↔ 0 < (g.connections.filter (fun c => c.strength = 1)).length := by
  simp only [identifyClusters]
  split_ifs <;> simp_all

/-- Claim C5: for a graph with positive strengths (as `buildRelationshipGraph`
produces), `identifyClusters` partitions the connections into at most three
strength-tier clusters: the cluster sizes sum to the number of connections,
each cluster's `size` is its member count and is positive, every connection
belongs to exactly one tier, and a tier yields a cluster exactly when it is
nonempty. -/
theorem c5_clusters_partition (g : Graph)
    (h : ∀ c ∈ g.connections, 1 ≤ c.strength) :
    (identifyClusters g).length ≤ 3
    ∧ ((identifyClusters g).map (fun cl => cl.size)).sum = g.connections.length
    ∧ (∀ cl ∈ identifyClusters g, cl.size = cl.addresses.length ∧ 0 < cl.size)
    ∧ (∀ c ∈ g.connections,
        (3 ≤ c.strength ∧ ¬ c.strength = 2 ∧ ¬ c.strength = 1)
        ∨ (c.strength = 2 ∧ ¬ 3 ≤ c.strength ∧ ¬ c.strength = 1)
        ∨ (c.strength = 1 ∧ ¬ 3 ≤ c.strength ∧ ¬ c.strength = 2))
    ∧ ((∃ cl ∈ identifyClusters g, cl.id = "high-frequency")
        ↔ ∃ c ∈ g.connections, 3 ≤ c.strength)
    ∧ ((∃ cl ∈ identifyClusters g, cl.id = "medium-frequency")
        ↔ ∃ c ∈ g.connections, c.strength = 2)
    ∧ ((∃ cl ∈ identifyClusters g, cl.id = "low-frequency")
        ↔ ∃ c ∈ g.connections, c.strength = 1) := by
  have hpart := strength_tier_partition g.connections h
  refine ⟨?_, ?_, ?_, ?_, ?_, ?_, ?_⟩
  · simp only [identifyClusters]
    split_ifs <;> simp
  · simp only [identifyClusters]
    split_ifs with h1 h2 h3 <;>
      simp only [List.map_append, List.map_cons, List.map_nil, List.sum_append,
        List.sum_cons, List.sum_nil] <;>
      omega
  · intro cl hcl
    simp only [identifyClusters] at hcl
    split_ifs at hcl <;> simp at hcl <;>
      rcases hcl with rfl | rfl | rfl <;> simp_all
  · intro c hc
    have := h c hc
    omega
  · rw [clusters_high_iff, filter_length_pos_iff]
    simp
  · rw [clusters_medium_iff, filter_length_pos_iff]
    simp
  · rw [clusters_low_iff, filter_length_pos_iff]
    simp

/-- Witness for C5 at a concrete four-connection graph. -/
theorem c5_clusters_partition_witness :
    ((identifyClusters c5Graph).map (fun cl => cl.size)).sum
        = c5Graph.connections.length
    ∧ (identifyClusters c5Graph).length ≤ 3 :=
  ⟨(c5_clusters_partition c5Graph (by decide)).2.1,
   (c5_clusters_partition c5Graph (by decide)).1⟩

/-- A key of the updated frequency map is an old key or the bumped hash. -/
theorem keysOf_bumpFreq_sub (h : String) (ts : Nat) :
    ∀ m k, k ∈ keysOf (bumpFreq h ts m) → k ∈ keysOf m ∨ k = h := by
  intro m
  induction m with
  | nil =>
    intro k hk
    simp only [bumpFreq, keysOf, List.map_cons, List.map_nil, List.mem_singleton] at hk
    exact Or.inr hk
  | cons p rest ih =>
    intro k hk
    obtain ⟨k0, d0⟩ := p
    simp only [bumpFreq] at hk
    split at hk
    · simp only [keysOf, List.map_cons, List.mem_cons] at hk ⊢
      exact Or.inl hk
    · simp only [keysOf, List.map_cons, List.mem_cons] at hk ⊢
      rcases hk with hk | hk
      · exact Or.inl (Or.inl hk)
      · rcases ih k hk with hk' | hk'
        · exact Or.inl (Or.inr hk')
        · exact Or.inr hk'

/-- A hash not yet present is appended at the end of the frequency map. -/
theorem bumpFreq_not_mem (h : String) (ts : Nat) :
    ∀ m, h ∉ keysOf m →
      bumpFreq h ts m
        = m ++ [(h, { count := 1, firstSeen := ts, lastSeen := ts })] := by
  intro m
  induction m with
  | nil => intro _; rfl
  | cons p rest ih =>
    intro hnm
    obtain ⟨k0, d0⟩ := p
    have hne : ¬ k0 = h := by
      intro he
      exact hnm (by simp only [keysOf, List.map_cons, List.mem_cons]; exact Or.inl he.symm)
    have h1 : h ∉ keysOf rest := by
      intro hm
      exact hnm (by simp only [keysOf, List.map_cons, List.mem_cons]; exact Or.inr hm)
    simp only [bumpFreq, if_neg hne, List.cons_append, ih h1]

/-- The frequency-map component of the combined graph fold is `freqFold`. -/
theorem graphFold_freq (now : Nat) :
    ∀ txs fs ls m,
      (txs.foldl (graphStep now) (fs, ls, m)).2.2 = freqFold now txs m := by
  intro txs
  induction txs with
  | nil => intro fs ls m; rfl
  | cons tx rest ih =>
    intro fs ls m
    simp only [List.foldl_cons]
    exact ih _ _ _

/-- Every key of the folded frequency map is an initial key or a transaction
hash of the list. -/
theorem freqFold_keys (now : Nat) :
    ∀ txs m k, k ∈ keysOf (freqFold now txs m) →
      k ∈ keysOf m ∨ ∃ tx ∈ txs, tx.tx_hash = k := by
  intro txs
  induction txs with
  | nil => intro m k hk; exact Or.inl hk
  | cons tx rest ih =>
    intro m k hk
    rcases ih (bumpFreq tx.tx_hash (txTimestamp tx now) m) k hk with hk' | ⟨tx', htx', he⟩
    · rcases keysOf_bumpFreq_sub _ _ m k hk' with h1 | h1
      · exact Or.inl h1
      · exact Or.inr ⟨tx, List.mem_cons_self _ _, h1.symm⟩
    · exact Or.inr ⟨tx', List.mem_cons_of_mem _ htx', he⟩

/-- With pairwise-distinct hashes (none of which is already in the map), every
stored count is 1. -/
theorem freqFold_count_one (now : Nat) :
    ∀ txs m, (∀ p ∈ m, (Prod.snd p).count = 1) →
      (∀ tx ∈ txs, tx.tx_hash ∉ keysOf m) →
      txs.Pairwise (fun a b => a.tx_hash ≠ b.tx_hash) →
      ∀ p ∈ freqFold now txs m, (Prod.snd p).count = 1 := by
  intro txs
  induction txs with
  | nil => intro m h1 _ _ p hp; exact h1 p hp
  | cons tx rest ih =>
    intro m h1 h2 h3 p hp
    have hnm : tx.tx_hash ∉ keysOf m := h2 tx (List.mem_cons_self _ _)
    have hp' : p ∈ freqFold now rest
        (m ++ [(tx.tx_hash,
          { count := 1, firstSeen := txTimestamp tx now,
            lastSeen := txTimestamp tx now })]) := by
      have : freqFold now (tx :: rest) m
          = freqFold now rest (bumpFreq tx.tx_hash (txTimestamp tx now) m) := rfl
      rw [this, bumpFreq_not_mem _ _ m hnm] at hp
      exact hp
    refine ih _ ?_ ?_ (List.pairwise_cons.mp h3).2 p hp'
    · intro q hq
      rcases List.mem_append.mp hq with hq | hq
      · exact h1 q hq
      · rw [List.mem_singleton.mp hq]
    · intro tx' htx' hmem
      have hkeys : keysOf (m ++ [(tx.tx_hash,
          ({ count := 1, firstSeen := txTimestamp tx now,
             lastSeen := txTimestamp tx now } : FreqData))])
          = keysOf m ++ [tx.tx_hash] := by
        simp [keysOf]
      rw [hkeys] at hmem
      rcases List.mem_append.mp hmem with hmem | hmem
      · exact h2 tx' (List.mem_cons_of_mem _ htx') hmem
      · exact ((List.pairwise_cons.mp h3).1 tx' htx')
          (List.mem_singleton.mp hmem).symm

/-- v2 analogue of `keysOf_bumpFreq_sub`. -/
theorem keysOf_bumpFreq2_sub (h : String) (ts : Nat) :
    ∀ m k, k ∈ keysOf (bumpFreq2 h ts m) → k ∈ keysOf m ∨ k = h := by
  intro m
  induction m with
  | nil =>
    intro k hk
    simp only [bumpFreq2, keysOf, List.map_cons, List.map_nil, List.mem_singleton] at hk
    exact Or.inr hk
  | cons p rest ih =>
    intro k hk
    obtain ⟨k0, d0⟩ := p
    simp only [bumpFreq2] at hk
    split at hk
    · simp only [keysOf, List.map_cons, List.mem_cons] at hk ⊢
      exact Or.inl hk
    · simp only [keysOf, List.map_cons, List.mem_cons] at hk ⊢
      rcases hk with hk | hk
      · exact Or.inl (Or.inl hk)
      · rcases ih k hk with hk' | hk'
        · exact Or.inl (Or.inr hk')
        · exact Or.inr hk'

/-- v2 analogue of `bumpFreq_not_mem`. -/
theorem bumpFreq2_not_mem (h : String) (ts : Nat) :
    ∀ m, h ∉ keysOf m →
      bumpFreq2 h ts m
        = m ++ [(h, { txHash := h, count := 1, firstSeen := ts, lastSeen := ts })] := by
  intro m
  induction m with
  | nil => intro _; rfl
  | cons p rest ih =>
    intro hnm
    obtain ⟨k0, d0⟩ := p
    have hne : ¬ k0 = h := by
      intro he
      exact hnm (by simp only [keysOf, List.map_cons, List.mem_cons]; exact Or.inl he.symm)
    have h1 : h ∉ keysOf rest := by
      intro hm
      exact hnm (by simp only [keysOf, List.map_cons, List.mem_cons]; exact Or.inr hm)
    simp only [bumpFreq2, if_neg hne, List.cons_append, ih h1]

/-- The frequency-map component of the combined v2 graph fold is `freqFold2`. -/
theorem graphFold2_freq (now : Nat) :
    ∀ txs fs ls m,
      (txs.foldl (graphStep2 now) (fs, ls, m)).2.2 = freqFold2 now txs m := by
  intro txs
  induction txs with
  | nil => intro fs ls m; rfl
  | cons tx rest ih =>
    intro fs ls m
    simp only [List.foldl_cons]
    exact ih _ _ _

/-- v2 analogue of `freqFold_keys`. -/
theorem freqFold2_keys (now : Nat) :
    ∀ txs m k, k ∈ keysOf (freqFold2 now txs m) →
      k ∈ keysOf m ∨ ∃ tx ∈ txs, tx.tx_hash = k := by
  intro txs
  induction txs with
  | nil => intro m k hk; exact Or.inl hk
  | cons tx rest ih =>
    intro m k hk
    rcases ih (bumpFreq2 tx.tx_hash (txTimestamp tx now) m) k hk with hk' | ⟨tx', htx', he⟩
    · rcases keysOf_bumpFreq2_sub _ _ m k hk' with h1 | h1
      · exact Or.inl h1
      · exact Or.inr ⟨tx, List.mem_cons_self _ _, h1.symm⟩
    · exact Or.inr ⟨tx', List.mem_cons_of_mem _ htx', he⟩

/-- v2 analogue of `freqFold_count_one`. -/
theorem freqFold2_count_one (now : Nat) :
    ∀ txs m, (∀ p ∈ m, (Prod.snd p).count = 1) →
      (∀ tx ∈ txs, tx.tx_hash ∉ keysOf m) →
      txs.Pairwise (fun a b => a.tx_hash ≠ b.tx_hash) →
      ∀ p ∈ freqFold2 now txs m, (Prod.snd p).count = 1 := by
  intro txs
  induction txs with
  | nil => intro m h1 _ _ p hp; exact h1 p hp
  | cons tx rest ih =>
    intro m h1 h2 h3 p hp
    have hnm : tx.tx_hash ∉ keysOf m := h2 tx (List.mem_cons_self _ _)
    have hp' : p ∈ freqFold2 now rest
        (m ++ [(tx.tx_hash,
          { txHash := tx.tx_hash, count := 1, firstSeen := txTimestamp tx now,
            lastSeen := txTimestamp tx now })]) := by
      have : freqFold2 now (tx :: rest) m
          = freqFold2 now rest (bumpFreq2 tx.tx_hash (txTimestamp tx now) m) := rfl
      rw [this, bumpFreq2_not_mem _ _ m hnm] at hp
      exact hp
    refine ih _ ?_ ?_ (List.pairwise_cons.mp h3).2 p hp'
    · intro q hq
      rcases List.mem_append.mp hq with hq | hq
      · exact h1 q hq
      · rw [List.mem_singleton.mp hq]
    · intro tx' htx' hmem
      have hkeys : keysOf (m ++ [(tx.tx_hash,
          ({ txHash := tx.tx_hash, count := 1, firstSeen := txTimestamp tx now,
             lastSeen := txTimestamp tx now } : FreqData2))])
          = keysOf m ++ [tx.tx_hash] := by
        simp [keysOf]
      rw [hkeys] at hmem
      rcases List.mem_append.mp hmem with hmem | hmem
      · exact h2 tx' (List.mem_cons_of_mem _ htx') hmem
      · exact ((List.pairwise_cons.mp h3).1 tx' htx')
          (List.mem_singleton.mp hmem).symm

/-- In the v2 frequency map, every stored `txHash` equals its key. -/
theorem freqFold2_txHash (now : Nat) :
    ∀ txs m, (∀ p ∈ m, (Prod.snd p).txHash = Prod.fst p) →
      ∀ p ∈ freqFold2 now txs m, (Prod.snd p).txHash = Prod.fst p := by
  have hbump : ∀ (h : String) (ts : Nat) m,
      (∀ p ∈ m, (Prod.snd p).txHash = Prod.fst p) →
      ∀ p ∈ bumpFreq2 h ts m, (Prod.snd p).txHash = Prod.fst p := by
    intro h ts m
    induction m with
    | nil =>
      intro _ p hp
      rw [List.mem_singleton.mp hp]
    | cons q rest ih =>
      intro hm p hp
      obtain ⟨k0, d0⟩ := q
      simp only [bumpFreq2] at hp
      split at hp
      · rcases List.mem_cons.mp hp with hp | hp
        · subst hp
          exact hm (k0, d0) (List.mem_cons_self _ _)
        · exact hm p (List.mem_cons_of_mem _ hp)
      · rcases List.mem_cons.mp hp with hp | hp
        · subst hp
          exact hm (k0, d0) (List.mem_cons_self _ _)
        · exact ih (fun q hq => hm q (List.mem_cons_of_mem _ hq)) p hp
  intro txs
  induction txs with
  | nil => intro m hm p hp; exact hm p hp
  | cons tx rest ih =>
    intro m hm p hp
    exact ih _ (hbump _ _ m hm) p hp

/-- Claim C3: every connection produced by `buildRelationshipGraph` (either
variant) has a target derived from one of the input transaction hashes — the
truncated hash plus "..." for the earlier variant, the full hash for the later
— never a counterparty address; and when the input hashes are pairwise
distinct, every connection has strength exactly 1. -/
theorem c3_graph_targets (src : String) (txs : List Tx) (now : Nat) :
    (∀ c ∈ (buildRelationshipGraph src txs now).connections,
        ∃ tx ∈ txs, c.target = jsSubstring16 tx.tx_hash ++ "...")
    ∧ (∀ c ∈ (buildRelationshipGraph_v2 src txs now).connections,
        ∃ tx ∈ txs, c.target = tx.tx_hash)
    ∧ (txs.Pairwise (fun a b => a.tx_hash ≠ b.tx_hash) →
        (∀ c ∈ (buildRelationshipGraph src txs now).connections, c.strength = 1)
        ∧ (∀ c ∈ (buildRelationshipGraph_v2 src txs now).connections, c.strength = 1)) := by
  refine ⟨?_, ?_, ?_⟩
  · intro c hc
    simp only [buildRelationshipGraph, List.mem_map] at hc
    obtain ⟨kd, hkd, rfl⟩ := hc
    rw [graphFold_freq] at hkd
    have hkey : kd.1 ∈ keysOf (freqFold now txs []) :=
      List.mem_map_of_mem Prod.fst hkd
    rcases freqFold_keys now txs [] kd.1 hkey with h0 | ⟨tx, htx, he⟩
    · exact absurd h0 (List.not_mem_nil _)
    · exact ⟨tx, htx, by rw [he]⟩
  · intro c hc
    simp only [buildRelationshipGraph_v2, List.mem_map] at hc
    obtain ⟨kd, hkd, rfl⟩ := hc
    rw [graphFold2_freq] at hkd
    have hkey : kd.1 ∈ keysOf (freqFold2 now txs []) :=
      List.mem_map_of_mem Prod.fst hkd
    have hhash : kd.2.txHash = kd.1 :=
      freqFold2_txHash now txs [] (by intro p hp; exact absurd hp (List.not_mem_nil p))
        kd hkd
    rcases freqFold2_keys now txs [] kd.1 hkey with h0 | ⟨tx, htx, he⟩
    · exact absurd h0 (List.not_mem_nil _)
    · exact ⟨tx, htx, by rw [hhash, he]⟩
  · intro hpw
    constructor
    · intro c hc
      simp only [buildRelationshipGraph, List.mem_map] at hc
      obtain ⟨kd, hkd, rfl⟩ := hc
      rw [graphFold_freq] at hkd
      exact freqFold_count_one now txs []
        (by intro p hp; exact absurd hp (List.not_mem_nil p))
        (by intro tx _ hmem; exact absurd hmem (List.not_mem_nil _))
        hpw kd hkd
    · intro c hc
      simp only [buildRelationshipGraph_v2, List.mem_map] at hc
      obtain ⟨kd, hkd, rfl⟩ := hc
      rw [graphFold2_freq] at hkd
      exact freqFold2_count_one now txs []
        (by intro p hp; exact absurd hp (List.not_mem_nil p))
        (by intro tx _ hmem; exact absurd hmem (List.not_mem_nil _))
        hpw kd hkd

/-- Witness for C3 at two concrete transactions with distinct hashes. -/
theorem c3_graph_targets_witness :
    List.Pairwise (fun a b => a.tx_hash ≠ b.tx_hash) c3Txs
    ∧ (∀ c ∈ (buildRelationshipGraph "addr1w3" c3Txs 0).connections, c.strength = 1)
    ∧ (∀ c ∈ (buildRelationshipGraph_v2 "addr1w3" c3Txs 0).connections, c.strength = 1) :=
  ⟨by decide,
   ((c3_graph_targets "addr1w3" c3Txs 0).2.2 (by decide)).1,
   ((c3_graph_targets "addr1w3" c3Txs 0).2.2 (by decide)).2⟩

/-- `occOf` on a cons cell. -/
theorem occOf_cons (t k : String) (d : OwnerData) (rest : List (String × OwnerData)) :
    occOf t ((k, d) :: rest) = if k = t then d.occurrences else occOf t rest := by
  by_cases h : k = t <;> simp [occOf, lookupTbl, h]

/-- `keysOf` on a cons cell. -/
theorem keysOf_cons {α : Type} (k : String) (d : α) (rest : List (String × α)) :
    keysOf ((k, d) :: rest) = k :: keysOf rest := rfl

/-- The stored occurrence count after a `bumpOwner` step. -/
theorem occOf_bumpOwner (src : String) (c : Connection) (t : String) :
    ∀ tbl, occOf t (bumpOwner src c tbl)
      = occOf t tbl + (if c.target = t then 1 else 0) := by
  intro tbl
  induction tbl with
  | nil =>
    by_cases h : c.target = t <;> simp [bumpOwner, occOf, lookupTbl, h]
  | cons p rest ih =>
    obtain ⟨k0, d0⟩ := p
    by_cases hk : k0 = c.target
    · simp only [bumpOwner, if_pos hk]
      rw [occOf_cons, occOf_cons]
      by_cases ht : k0 = t
      · have hct : c.target = t := hk.symm.trans ht
        simp [ht, hct]
      · have hct : ¬ c.target = t := fun he => ht (hk.trans he)
        simp [ht, hct]
    · simp only [bumpOwner, if_neg hk]
      rw [occOf_cons, occOf_cons]
      by_cases ht : k0 = t
      · have hct : ¬ c.target = t := fun he => hk (ht.trans he.symm)
        simp [ht, hct]
      · simp [ht, ih]

/-- Membership in a bumped owner table: an untouched entry, the updated entry
(address preserved, count incremented), or the freshly created entry. -/
theorem mem_bumpOwner (src : String) (c : Connection) :
    ∀ tbl p, p ∈ bumpOwner src c tbl →
      p ∈ tbl
      ∨ (∃ q, q ∈ tbl ∧ Prod.fst p = Prod.fst q
          ∧ (Prod.snd p).address = (Prod.snd q).address
          ∧ (Prod.snd p).occurrences = (Prod.snd q).occurrences + 1)
      ∨ (Prod.fst p = c.target ∧ (Prod.snd p).address = c.target
          ∧ (Prod.snd p).occurrences = 1) := by
  intro tbl
  induction tbl with
  | nil =>
    intro p hp
    rw [List.mem_singleton.mp hp]
    exact Or.inr (Or.inr ⟨rfl, rfl, rfl⟩)
  | cons q0 rest ih =>
    intro p hp
    obtain ⟨k0, d0⟩ := q0
    simp only [bumpOwner] at hp
    split at hp
    · rcases List.mem_cons.mp hp with hp | hp
      · subst hp
        exact Or.inr (Or.inl ⟨(k0, d0), List.mem_cons_self _ _, rfl, rfl, rfl⟩)
      · exact Or.inl (List.mem_cons_of_mem _ hp)
    · rcases List.mem_cons.mp hp with hp | hp
      · subst hp
        exact Or.inl (List.mem_cons_self _ _)
      · rcases ih p hp with h | ⟨q, hq, hh⟩ | h
        · exact Or.inl (List.mem_cons_of_mem _ h)
        · exact Or.inr (Or.inl ⟨q, List.mem_cons_of_mem _ hq, hh⟩)
        · exact Or.inr (Or.inr h)

/-- Keys after a `bumpOwner` step. -/
theorem keysOf_bumpOwner (src : String) (c : Connection) :
    ∀ tbl, keysOf (bumpOwner src c tbl)
      = if c.target ∈ keysOf tbl then keysOf tbl else keysOf tbl ++ [c.target] := by
  intro tbl
  induction tbl with
  | nil => simp [bumpOwner, keysOf]
  | cons p rest ih =>
    obtain ⟨k0, d0⟩ := p
    by_cases hk : k0 = c.target
    · have hmem : c.target ∈ keysOf ((k0, d0) :: rest) := by
        rw [keysOf_cons, ← hk]
        exact List.mem_cons_self _ _
      rw [if_pos hmem]
      simp only [bumpOwner, if_pos hk, keysOf_cons]
    · simp only [bumpOwner, if_neg hk, keysOf_cons, ih]
      by_cases hmem : c.target ∈ keysOf rest
      · rw [if_pos hmem, if_pos (List.mem_cons_of_mem _ hmem)]
      · have hnot : ¬ c.target ∈ k0 :: keysOf rest := by
          intro hc
          rcases List.mem_cons.mp hc with hc | hc
          · exact hk hc.symm
          · exact hmem hc
        rw [if_neg hmem, if_neg hnot]
        rfl

/-- `bumpOwner` preserves table well-formedness. -/
theorem tblWF_bumpOwner (src : String) (c : Connection) :
    ∀ tbl, TblWF tbl → TblWF (bumpOwner src c tbl) := by
  intro tbl hwf
  obtain ⟨hnd, hfields⟩ := hwf
  constructor
  · rw [keysOf_bumpOwner]
    split_ifs with hmem
    · exact hnd
    · rw [List.nodup_append]
      exact ⟨hnd, List.nodup_singleton _, by simpa using hmem⟩
  · intro p hp
    rcases mem_bumpOwner src c tbl p hp with h | ⟨q, hq, h1, h2, h3⟩ | ⟨h1, h2, h3⟩
    · exact hfields p h
    · obtain ⟨hqa, hqo⟩ := hfields q hq
      refine ⟨?_, ?_⟩
      · rw [h2, hqa, h1]
      · omega
    · exact ⟨h2.trans h1.symm, by omega⟩

/-- First-match lookup finds each entry of a table with distinct keys. -/
theorem lookupTbl_of_mem {α : Type} :
    ∀ (tbl : List (String × α)), (keysOf tbl).Nodup →
      ∀ p ∈ tbl, lookupTbl (Prod.fst p) tbl = some (Prod.snd p) := by
  intro tbl
  induction tbl with
  | nil => intro _ p hp; exact absurd hp (List.not_mem_nil p)
  | cons q rest ih =>
    intro hnd p hp
    obtain ⟨k0, d0⟩ := q
    simp only [keysOf, List.map_cons, List.nodup_cons] at hnd
    rcases List.mem_cons.mp hp with hp | hp
    · subst hp
      simp [lookupTbl]
    · have hk : ¬ k0 = p.1 := by
        intro he
        have hmem : p.1 ∈ keysOf rest := List.mem_map_of_mem Prod.fst hp
        exact hnd.1 (he ▸ hmem)
      simp only [lookupTbl, if_neg hk]
      exact ih hnd.2 p hp

/-- A successful lookup yields a member entry. -/
theorem mem_of_lookupTbl {α : Type} :
    ∀ (tbl : List (String × α)) (t : String) (d : α),
      lookupTbl t tbl = some d → (t, d) ∈ tbl := by
  intro tbl
  induction tbl with
  | nil =>
    intro t d h
    exact absurd h (by simp [lookupTbl])
  | cons q rest ih =>
    intro t d h
    obtain ⟨k0, d0⟩ := q
    by_cases hk : k0 = t
    · subst hk
      simp only [lookupTbl, if_pos rfl] at h
      injection h with h2
      subst h2
      exact List.mem_cons_self _ _
    · simp only [lookupTbl, if_neg hk] at h
      exact List.mem_cons_of_mem _ (ih t d h)

/-- Occurrence count after the inner connection loop. -/
theorem occOf_connsFold (src : String) (t : String) :
    ∀ (conns : List Connection) (tbl : List (String × OwnerData)),
      occOf t (conns.foldl (fun tbl c => bumpOwner src c tbl) tbl)
        = occOf t tbl + (conns.filter (fun c => c.target = t)).length := by
  intro conns
  induction conns with
  | nil => intro tbl; simp
  | cons c cs ih =>
    intro tbl
    simp only [List.foldl_cons, ih, occOf_bumpOwner, List.filter_cons]
    by_cases h : c.target = t
    · simp only [h, if_pos rfl, if_true]
      simp
      omega
    · simp [h]

/-- Occurrence count after folding a list of analyses. -/
theorem occOf_ownerTable_aux (t : String) :
    ∀ (analyses : List Relationships) (tbl : List (String × OwnerData)),
      occOf t (analyses.foldl ownerTableStep tbl)
        = occOf t tbl + targetOccurrences t analyses := by
  intro analyses
  induction analyses with
  | nil => intro tbl; simp [targetOccurrences]
  | cons a as ih =>
    intro tbl
    simp only [List.foldl_cons, ih, targetOccurrences, List.map_cons, List.sum_cons]
    have hstep : ownerTableStep tbl a
        = a.connections.foldl (fun tbl c => bumpOwner a.address c tbl) tbl := rfl
    rw [hstep, occOf_connsFold]
    omega

/-- The stored count for `t` in the full owner table is the total number of
connection entries targeting `t`. -/
theorem occOf_ownerTable (t : String) (analyses : List Relationships) :
    occOf t (ownerTable analyses) = targetOccurrences t analyses := by
  have h := occOf_ownerTable_aux t analyses []
  simpa [ownerTable, occOf, lookupTbl] using h

/-- The inner connection loop preserves well-formedness. -/
theorem tblWF_connsFold (src : String) :
    ∀ (conns : List Connection) tbl, TblWF tbl →
      TblWF (conns.foldl (fun tbl c => bumpOwner src c tbl) tbl) := by
  intro conns
  induction conns with
  | nil => intro tbl h; exact h
  | cons c cs ih =>
    intro tbl h
    exact ih _ (tblWF_bumpOwner src c tbl h)

/-- Folding analyses preserves well-formedness. -/
theorem tblWF_foldSteps :
    ∀ (analyses : List Relationships) tbl, TblWF tbl →
      TblWF (analyses.foldl ownerTableStep tbl) := by
  intro analyses
  induction analyses with
  | nil => intro tbl h; exact h
  | cons a as ih =>
    intro tbl h
    exact ih _ (tblWF_connsFold a.address a.connections tbl h)

/-- In a well-formed table, each entry's count is the `occOf` of its key. -/
theorem entry_occ_eq (tbl : List (String × OwnerData)) (hwf : TblWF tbl)
    (p : String × OwnerData) (hp : p ∈ tbl) :
    (Prod.snd p).occurrences = occOf (Prod.fst p) tbl := by
  simp [occOf, lookupTbl_of_mem tbl hwf.1 p hp]

/-- A key is present exactly when its count is positive. -/
theorem mem_keys_iff_occ_pos (tbl : List (String × OwnerData)) (hwf : TblWF tbl)
    (t : String) :
    t ∈ keysOf tbl ↔ 0 < occOf t tbl := by
  constructor
  · intro ht
    rcases List.mem_map.mp ht with ⟨p, hp, rfl⟩
    have hocc := (hwf.2 p hp).2
    have := entry_occ_eq tbl hwf p hp
    omega
  · intro hocc
    match hl : lookupTbl t tbl with
    | none =>
      rw [show occOf t tbl = 0 by simp [occOf, hl]] at hocc
      exact absurd hocc (by omega)
    | some d =>
      exact List.mem_map.mpr ⟨(t, d), mem_of_lookupTbl tbl t d hl, rfl⟩

/-- Claim C4, counterexample: a target duplicated inside a single analysis is
listed as a beneficial owner even though it occurs in only one of the
per-address analyses, so membership is decided by the total occurrence count,
not by the number of distinct analyses. -/
theorem c4_beneficial_owners_counterexample :
    analysesContaining "t" c4CexAnalyses = 1
    ∧ ∃ b ∈ identifyBeneficialOwners c4CexAnalyses, b.address = "t" := by
  constructor
  · decide
  · norm_num [identifyBeneficialOwners, ownerTable, ownerTableStep, bumpOwner, mkOwner,
      jsMinQ, likGE, List.insertionSort, List.orderedInsert, c4CexAnalyses, mkConn]

/-- Claim C4 (amended): `identifyBeneficialOwners(analyses)` lists a target
exactly when its total number of occurrences as a connection target across all
analyses' connection lists is at least 2 — within-analysis repeats counted —
each candidate's likelihood is `min((occurrences / analyses.length) * 100, 100)`,
its type is `strong` exactly when `occurrences >= 0.5 * analyses.length` (else
`moderate`), and the returned list is sorted by likelihood descending. -/
theorem c4_beneficial_owners_amended (analyses : List Relationships) :
    (∀ t, (∃ b ∈ identifyBeneficialOwners analyses, b.address = t)
        ↔ 2 ≤ targetOccurrences t analyses)
    ∧ (∀ b ∈ identifyBeneficialOwners analyses,
        b.likelihood = jsMinQ ((targetOccurrences b.address analyses : ℚ)
            / (analyses.length : ℚ) * 100) 100
        ∧ (b.otype = "strong" ↔
            ((analyses.length : ℚ) * (1/2)
              ≤ (targetOccurrences b.address analyses : ℚ)))
        ∧ (b.otype = "strong" ∨ b.otype = "moderate"))
    ∧ List.Sorted likGE (identifyBeneficialOwners analyses) := by
  have hwf : TblWF (ownerTable analyses) :=
    tblWF_foldSteps analyses []
      ⟨List.nodup_nil, by intro p hp; exact absurd hp (List.not_mem_nil p)⟩
  have hresult : identifyBeneficialOwners analyses
      = List.insertionSort likGE
          ((((ownerTable analyses).map Prod.snd).filter
            (fun d => 2 ≤ d.occurrences)).map (mkOwner analyses.length)) := rfl
  have hmem : ∀ b, b ∈ identifyBeneficialOwners analyses ↔
      ∃ p, p ∈ ownerTable analyses ∧ 2 ≤ (Prod.snd p).occurrences
        ∧ b = mkOwner analyses.length (Prod.snd p) := by
    intro b
    rw [hresult, (List.perm_insertionSort likGE _).mem_iff]
    constructor
    · intro hb
      rcases List.mem_map.mp hb with ⟨d, hd, rfl⟩
      rcases List.mem_filter.mp hd with ⟨hd2, hocc⟩
      rcases List.mem_map.mp hd2 with ⟨p, hp, rfl⟩
      exact ⟨p, hp, by simpa using hocc, rfl⟩
    · rintro ⟨p, hp, hocc, rfl⟩
      exact List.mem_map.mpr ⟨p.2,
        List.mem_filter.mpr ⟨List.mem_map_of_mem Prod.snd hp, by simpa using hocc⟩, rfl⟩
  refine ⟨?_, ?_, ?_⟩
  · intro t
    constructor
    · rintro ⟨b, hb, rfl⟩
      rcases (hmem b).mp hb with ⟨p, hp, hocc, rfl⟩
      have haddr : (mkOwner analyses.length p.2).address = p.1 := by
        simp [mkOwner, (hwf.2 p hp).1]
      rw [haddr, ← occOf_ownerTable, ← entry_occ_eq _ hwf p hp]
      exact hocc
    · intro hocc2
      have hop : 0 < occOf t (ownerTable analyses) := by
        rw [occOf_ownerTable]
        omega
      have hkey : t ∈ keysOf (ownerTable analyses) :=
        (mem_keys_iff_occ_pos _ hwf t).mpr hop
      rcases List.mem_map.mp hkey with ⟨p, hp, rfl⟩
      refine ⟨mkOwner analyses.length p.2, (hmem _).mpr ⟨p, hp, ?_, rfl⟩, ?_⟩
      · rw [entry_occ_eq _ hwf p hp, occOf_ownerTable]
        exact hocc2
      · simp [mkOwner, (hwf.2 p hp).1]
  · intro b hb
    rcases (hmem b).mp hb with ⟨p, hp, hocc, rfl⟩
    have haddr : (mkOwner analyses.length p.2).address = p.1 := by
      simp [mkOwner, (hwf.2 p hp).1]
    have hocc_eq : p.2.occurrences = targetOccurrences p.1 analyses := by
      rw [entry_occ_eq _ hwf p hp, occOf_ownerTable]
    refine ⟨?_, ?_, ?_⟩
    · rw [haddr, ← hocc_eq]
      rfl
    · rw [haddr, ← hocc_eq]
      simp only [mkOwner]
      constructor
      · intro hs
        by_cases hcond : (analyses.length : ℚ) * (1/2) ≤ ((p.2.occurrences : Nat) : ℚ)
        · exact hcond
        · rw [if_neg hcond] at hs
          exact absurd hs (by decide)
      · intro hcond
        rw [if_pos hcond]
    · simp only [mkOwner]
      split_ifs <;> simp
  · rw [hresult]
    exact List.sorted_insertionSort likGE _

/-- Witness for C4 (amended) at two concrete analyses sharing a target. -/
theorem c4_beneficial_owners_amended_witness :
    2 ≤ targetOccurrences "shared" c4WitAnalyses
    ∧ (∃ b ∈ identifyBeneficialOwners c4WitAnalyses, b.address = "shared") :=
  ⟨by decide,
   ((c4_beneficial_owners_amended c4WitAnalyses).1 "shared").mpr (by decide)⟩

/-- `bumpFreq` keeps every stored count positive. -/
theorem bumpFreq_count_pos (h : String) (ts : Nat) :
    ∀ m, (∀ p ∈ m, 1 ≤ (Prod.snd p).count) →
      ∀ p ∈ bumpFreq h ts m, 1 ≤ (Prod.snd p).count := by
  intro m
  induction m with
  | nil =>
    intro _ p hp
    rw [List.mem_singleton.mp hp]
  | cons q rest ih =>
    intro hm p hp
    obtain ⟨k0, d0⟩ := q
    simp only [bumpFreq] at hp
    split at hp
    · rcases List.mem_cons.mp hp with hp | hp
      · subst hp
        have := hm (k0, d0) (List.mem_cons_self _ _)
        simp only [Prod.snd] at this ⊢
        omega
      · exact hm p (List.mem_cons_of_mem _ hp)
    · rcases List.mem_cons.mp hp with hp | hp
      · subst hp
        exact hm (k0, d0) (List.mem_cons_self _ _)
      · exact ih (fun q hq => hm q (List.mem_cons_of_mem _ hq)) p hp

/-- Every connection built by the earlier `buildRelationshipGraph` has
strength at least 1, so the hypothesis of the cluster-partition theorem holds
of every graph the analyzer actually produces. -/
theorem buildGraph_strength_pos (src : String) (txs : List Tx) (now : Nat) :
    ∀ c ∈ (buildRelationshipGraph src txs now).connections, 1 ≤ c.strength := by
  have hfold : ∀ txs m, (∀ p ∈ m, 1 ≤ (Prod.snd p).count) →
      ∀ p ∈ freqFold now txs m, 1 ≤ (Prod.snd p).count := by
    intro txs
    induction txs with
    | nil => intro m hm p hp; exact hm p hp
    | cons tx rest ih =>
      intro m hm p hp
      exact ih _ (bumpFreq_count_pos _ _ m hm) p hp
  intro c hc
  simp only [buildRelationshipGraph, List.mem_map] at hc
  obtain ⟨kd, hkd, rfl⟩ := hc
  rw [graphFold_freq] at hkd
  exact hfold txs [] (by intro p hp; exact absurd hp (List.not_mem_nil p)) kd hkd

end HKDG

